import Mathlib

/-!
Shallow embedding of the jlib repository: `dcore` (src/C++/core/dcore.cpp),
`tensor` (src/C++/tensor/tensor.hpp), and the `Pfile` parallel file registry
(pfile.hpp).  For `Pfile` only the class declaration is in the source tree
(the header), with `get_pos` defined inline there; the other member-function
bodies are not in the tree, so those operations are modelled from the spec,
as marked in their doc comments.  Machine pointers are modelled as element
offsets or validity flags; `exit(1)` paths are embedded as `Except.error`.
-/

/-- State of `dcore` (dcore.cpp): `len` elements allocated, `navbl` free
elements, `next` modelled as the element offset of the bump pointer from
`buf` (so `next = 0` means the pointer equals `buf`). -/
structure dcore where
  len : Nat
  navbl : Nat
  next : Nat
  allocated : Bool
deriving DecidableEq

/-- `dcore::checkout` (dcore.cpp lines 126-143): on the non-exiting path
(`allocated` true and `navbl >= n`) it does `navbl -= n; next += n;` and then
`return next;`, i.e. it returns the bump pointer after advancing.  The two
`printf`+`exit(1)` paths are embedded as errors. -/
def dcore.checkout (d : dcore) (n : Nat) : Except String (Nat × dcore) :=
  if d.allocated then
    if n ≤ d.navbl then
      Except.ok (d.next + n, { d with navbl := d.navbl - n, next := d.next + n })
    else Except.error "Attempted to checkout more elements than dcore has"
  else Except.error "Attempted to checkout unallocated dcore"

/-- `dcore::remove` (dcore.cpp lines 152-169): returns elements to the end of
the arena, clamping at the empty arena, and returns the new bump pointer. -/
def dcore.remove (d : dcore) (n : Nat) : Except String (Nat × dcore) :=
  if d.allocated then
    if d.navbl + n ≤ d.len then
      Except.ok (d.next - n, { d with navbl := d.navbl + n, next := d.next - n })
    else Except.ok (0, { d with navbl := d.len, next := 0 })
  else Except.error "Attempted to remove unallocated dcore"

/-- State of `libj::tensor<T>` (tensor.hpp lines 95-199).  The two raw
pointers are modelled as optional abstract addresses. -/
structure tensor where
  M_BUFFER : Option Nat
  M_POINTER : Option Nat
  M_LENGTHS : List Nat
  M_STRIDE : List Nat
  M_NDIM : Nat
  M_NELM : Nat
  M_ALIGNMENT : Nat
  M_IS_ALLOCATED : Bool
  M_IS_ASSIGNED : Bool
deriving DecidableEq

/-- `tensor<T>::m_set_default` (tensor.hpp lines 218-227): nulls the two
pointers and zeroes `M_NELM`, `M_ALIGNMENT` and both flags; it does not touch
`M_LENGTHS`, `M_STRIDE` or `M_NDIM`. -/
def tensor.m_set_default (t : tensor) : tensor :=
  { t with M_BUFFER := none, M_POINTER := none, M_NELM := 0, M_ALIGNMENT := 0,
           M_IS_ALLOCATED := false, M_IS_ASSIGNED := false }

/-- `tensor<T>::deallocate` (tensor.hpp lines 446-458): if allocated, frees
`M_POINTER` (a heap effect with no representation here) and nulls `M_BUFFER`;
it does not change `M_POINTER`, `M_IS_ALLOCATED` or anything else.  The
unallocated case is the `printf`+`exit(1)` path. -/
def tensor.deallocate (t : tensor) : Except String tensor :=
  if t.M_IS_ALLOCATED then Except.ok { t with M_BUFFER := none }
  else Except.error "attempted to deallocate an unallocated tensor"

/-- `tensor<T>::unassign` (tensor.hpp lines 463-476): if assigned, nulls
`M_POINTER` and `M_BUFFER` and then calls `m_set_default()`. -/
def tensor.unassign (t : tensor) : Except String tensor :=
  if t.M_IS_ASSIGNED then
    Except.ok (tensor.m_set_default { t with M_POINTER := none, M_BUFFER := none })
  else Except.error "attempted to unassign an unassigned tensor"

/-- `tensor<T>::is_allocated` (tensor.hpp line 181): `return M_IS_ALLOCATED;`. -/
def tensor.is_allocated (t : tensor) : Bool := t.M_IS_ALLOCATED

/-- `tensor<T>::is_assigned` (tensor.hpp line 182): `return M_IS_ASSIGNED;`. -/
def tensor.is_assigned (t : tensor) : Bool := t.M_IS_ASSIGNED

/-- `tensor<T>::is_set` (tensor.hpp line 183). -/
def tensor.is_set (t : tensor) : Bool := t.M_IS_ALLOCATED || t.M_IS_ASSIGNED

/-- Error code `PFILE_ERR_NULL` (pfile.hpp line 88). -/
def PFILE_ERR_NULL : Int := -1

/-- Error code `PFILE_ERR_OPEN` (pfile.hpp line 89). -/
def PFILE_ERR_OPEN : Int := -2

/-- Error code `PFILE_ERR_CLOSE` (pfile.hpp line 90). -/
def PFILE_ERR_CLOSE : Int := -3

/-- Error code `PFILE_ERR_ERASE` (pfile.hpp line 91). -/
def PFILE_ERR_ERASE : Int := -4

/-- Error code `PFILE_ERR_FLUSH` (pfile.hpp line 92). -/
def PFILE_ERR_FLUSH : Int := -5

/-- Error code `PFILE_ERR_SLEN` (pfile.hpp line 93). -/
def PFILE_ERR_SLEN : Int := -6

/-- `PFILE_LEN` (pfile.hpp line 95): maximum stored string length. -/
def PFILE_LEN : Nat := 32

/-- The `Pfio` record (pfile.hpp lines 62-66): a `FILE*` handle, modelled as a
validity flag, and the stored file position `fpos`. -/
structure Pfio where
  fptr : Bool
  fpos : Int
deriving DecidableEq

/-- The parallel execution context `Pworld` (external interface, spec section 6):
the calling task's rank, the total task count, and the designated responsible
(root) task's rank. -/
structure Pworld where
  mytask : Nat
  ntasks : Nat
  root : Nat
deriving DecidableEq

/-- A file's sharing mode (spec sections 4.1-4.2): shared means one physical
copy owned by the context's root task; private means one copy per task. -/
inductive SMode
| shared
| priv
deriving DecidableEq

/-- The `Pfile` table (pfile.hpp lines 97-190): parallel arrays indexed by the
internal file id, as in the header: `m_fio`, `m_isopen`, `m_fname`, `m_fstat`,
`m_nfiles`.  `m_mode` is modelled from the spec (section 4.1: the sharing mode is
"stored per-record"); the header stores no mode because its bodies are absent
from the tree. -/
structure Pfile where
  m_fio : List Pfio
  m_isopen : List Bool
  m_fname : List String
  m_fstat : List String
  m_mode : List SMode
  m_nfiles : Nat
deriving DecidableEq

/-- Modelled from the spec: the participation policy (section 4.1), whose
implementation is not in the source tree.  For a shared file only the
context's designated root task is responsible; for a private file every task
is.  Pure function of the context and the mode. -/
def Pfile.responsible (pworld : Pworld) (mode : SMode) : Bool :=
  match mode with
  | SMode.shared => pworld.mytask == pworld.root
  | SMode.priv => true

/-- Modelled from the spec: `Pfile::xfile_loc` (declared pfile.hpp line 162,
body not in the tree): the index of the first record whose stored name equals
`fname`, or `PFILE_ERR_NULL` when there is none. -/
def Pfile.xfile_loc (t : Pfile) (fname : String) : Int :=
  match t.m_fname.findIdx? (fun s => s == fname) with
  | some i => Int.ofNat i
  | none => PFILE_ERR_NULL

/-- Modelled from the spec: `Pfile::xadd` (declared pfile.hpp line 121, body
not in the tree).  Registration appends a closed record; the new id is the
current `m_nfiles`; a name longer than `PFILE_LEN` is rejected with
`PFILE_ERR_SLEN` and the table is left unchanged. -/
def Pfile.xadd (t : Pfile) (fname : String) (mode : SMode) : Int × Pfile :=
  if PFILE_LEN < fname.length then (PFILE_ERR_SLEN, t)
  else
    (Int.ofNat t.m_nfiles,
      { m_fio := t.m_fio ++ [⟨false, 0⟩]
        m_isopen := t.m_isopen ++ [false]
        m_fname := t.m_fname ++ [fname]
        m_fstat := t.m_fstat ++ [""]
        m_mode := t.m_mode ++ [mode]
        m_nfiles := t.m_nfiles + 1 })

/-- Modelled from the spec: `Pfile::add` (declared pfile.hpp line 120, body not
in the tree).  Registration is replicated metadata executed identically on
every task (spec section 3 invariants), so the id assignment takes nothing from
the context; the context is used only for later name resolution. -/
def Pfile.add (pworld : Pworld) (t : Pfile) (fname : String) (mode : SMode) :
    Int × Pfile :=
  Pfile.xadd t fname mode

/-- Modelled from the spec: `Pfile::sadd` (declared pfile.hpp line 119, body
not in the tree): resolve the external name; if it is already registered
return its id, otherwise register it. -/
def Pfile.sadd (pworld : Pworld) (t : Pfile) (fname : String) (mode : SMode) :
    Int × Pfile :=
  match t.m_fname.findIdx? (fun s => s == fname) with
  | some i => (Int.ofNat i, t)
  | none => Pfile.add pworld t fname mode

/-- Modelled from the spec: `Pfile::xopen` (declared pfile.hpp line 138, body
not in the tree).  `osnull` simulates the OS `fopen` returning a null handle.
An already-open record yields `PFILE_ERR_OPEN`; a null handle yields
`PFILE_ERR_NULL`; otherwise the record becomes open with a valid handle,
position 0, and `fstat` stored as its status. -/
def Pfile.xopen (osnull : Bool) (t : Pfile) (fid : Nat) (fstat : String) :
    Int × Pfile :=
  if t.m_isopen.getD fid false then (PFILE_ERR_OPEN, t)
  else if osnull then (PFILE_ERR_NULL, t)
  else (0, { t with m_fio := t.m_fio.set fid ⟨true, 0⟩
                    m_isopen := t.m_isopen.set fid true
                    m_fstat := t.m_fstat.set fid fstat })

/-- Modelled from the spec: `Pfile::open` (declared pfile.hpp line 137, body
not in the tree; named `openf` here because `open` is reserved in Lean):
consult the participation policy, then either delegate to `xopen` or succeed
as a no-op. -/
def Pfile.openf (osnull : Bool) (pworld : Pworld) (t : Pfile) (fid : Nat)
    (fstat : String) : Int × Pfile :=
  if Pfile.responsible pworld (t.m_mode.getD fid SMode.shared) then
    Pfile.xopen osnull t fid fstat
  else (0, t)

/-- Modelled from the spec: `Pfile::sopen` (declared pfile.hpp line 135, body
not in the tree): resolve the name, consult the participation policy, and
either delegate or return success as a no-op.  An unregistered name yields
`PFILE_ERR_NULL`. -/
def Pfile.sopen (osnull : Bool) (pworld : Pworld) (t : Pfile)
    (fname fstat : String) : Int × Pfile :=
  match t.m_fname.findIdx? (fun s => s == fname) with
  | none => (PFILE_ERR_NULL, t)
  | some fid =>
    if Pfile.responsible pworld (t.m_mode.getD fid SMode.shared) then
      Pfile.xopen osnull t fid fstat
    else (0, t)

/-- Modelled from the spec: `Pfile::saddopen` (declared pfile.hpp line 136,
body not in the tree): add then open; returns the id on success; on an open
failure the registration is rolled back and the error propagated. -/
def Pfile.saddopen (osnull : Bool) (pworld : Pworld) (t : Pfile)
    (fname fstat : String) (mode : SMode) : Int × Pfile :=
  if (Pfile.sadd pworld t fname mode).1 < 0 then
    ((Pfile.sadd pworld t fname mode).1, t)
  else if (Pfile.openf osnull pworld (Pfile.sadd pworld t fname mode).2
      (Pfile.sadd pworld t fname mode).1.toNat fstat).1 < 0 then
    ((Pfile.openf osnull pworld (Pfile.sadd pworld t fname mode).2
      (Pfile.sadd pworld t fname mode).1.toNat fstat).1, t)
  else
    ((Pfile.sadd pworld t fname mode).1,
     (Pfile.openf osnull pworld (Pfile.sadd pworld t fname mode).2
      (Pfile.sadd pworld t fname mode).1.toNat fstat).2)

/-- Modelled from the spec: `Pfile::xclose` (declared pfile.hpp line 143, body
not in the tree).  `cfail` simulates the OS `fclose` failing, which yields
`PFILE_ERR_CLOSE` and leaves the record untouched; success marks the record
closed and invalidates its handle; a record that is not open is a successful
no-op. -/
def Pfile.xclose (cfail : Bool) (t : Pfile) (fid : Nat) : Int × Pfile :=
  if t.m_isopen.getD fid false then
    if cfail then (PFILE_ERR_CLOSE, t)
    else (0, { t with
      m_fio := t.m_fio.set fid ⟨false, (t.m_fio.getD fid ⟨false, 0⟩).fpos⟩
      m_isopen := t.m_isopen.set fid false })
  else (0, t)

/-- Modelled from the spec: `Pfile::close` (declared pfile.hpp line 142, body
not in the tree): participation-checked close. -/
def Pfile.close (cfail : Bool) (pworld : Pworld) (t : Pfile) (fid : Nat) :
    Int × Pfile :=
  if Pfile.responsible pworld (t.m_mode.getD fid SMode.shared) then
    Pfile.xclose cfail t fid
  else (0, t)

/-- Helper loop for `Pfile.close_all`: fold the participation-checked close
over a list of ids, keeping the first nonzero status. -/
def Pfile.close_list (cfails : Nat → Bool) (pworld : Pworld) :
    List Nat → Int × Pfile → Int × Pfile
  | [], acc => acc
  | fid :: rest, acc =>
    Pfile.close_list cfails pworld rest
      (if acc.1 = 0 then (Pfile.close (cfails fid) pworld acc.2 fid).1 else acc.1,
       (Pfile.close (cfails fid) pworld acc.2 fid).2)

/-- Modelled from the spec: `Pfile::close_all` (declared pfile.hpp line 144,
body not in the tree): attempt the close transition on every record,
continuing past individual failures, and return the first error encountered
(0 when none).  `cfails fid` simulates the physical close of record `fid`
failing. -/
def Pfile.close_all (cfails : Nat → Bool) (pworld : Pworld) (t : Pfile) :
    Int × Pfile :=
  Pfile.close_list cfails pworld (List.range t.m_nfiles) (0, t)

/-- Modelled from the spec: `Pfile::xerase` (declared pfile.hpp line 150, body
not in the tree): close the record if open (`cfail` simulates that close
failing), delete the physical file (`efail` simulates the deletion failing
with `PFILE_ERR_ERASE`), and drop the record from the table regardless, so no
handle is leaked.  Dropping is modelled as blanking the record in place,
keeping ids of other records stable. -/
def Pfile.xerase (cfail efail : Bool) (t : Pfile) (fid : Nat) : Int × Pfile :=
  (if t.m_isopen.getD fid false ∧ cfail then PFILE_ERR_CLOSE
   else if efail then PFILE_ERR_ERASE else 0,
    { t with m_fio := t.m_fio.set fid ⟨false, 0⟩
             m_isopen := t.m_isopen.set fid false
             m_fname := t.m_fname.set fid ""
             m_fstat := t.m_fstat.set fid "" })

/-- Modelled from the spec: `Pfile::erase` (declared pfile.hpp line 149, body
not in the tree): participation-checked erase. -/
def Pfile.erase (cfail efail : Bool) (pworld : Pworld) (t : Pfile) (fid : Nat) :
    Int × Pfile :=
  if Pfile.responsible pworld (t.m_mode.getD fid SMode.shared) then
    Pfile.xerase cfail efail t fid
  else (0, t)

/-- Helper loop for `Pfile.erase_all`: fold the participation-checked erase
over a list of ids, keeping the first nonzero status. -/
def Pfile.erase_list (cfails efails : Nat → Bool) (pworld : Pworld) :
    List Nat → Int × Pfile → Int × Pfile
  | [], acc => acc
  | fid :: rest, acc =>
    Pfile.erase_list cfails efails pworld rest
      (if acc.1 = 0 then (Pfile.erase (cfails fid) (efails fid) pworld acc.2 fid).1
       else acc.1,
       (Pfile.erase (cfails fid) (efails fid) pworld acc.2 fid).2)

/-- Modelled from the spec: `Pfile::erase_all` (declared pfile.hpp line 151,
body not in the tree): attempt the erase transition on every record,
best-effort, returning the first error encountered. -/
def Pfile.erase_all (cfails efails : Nat → Bool) (pworld : Pworld) (t : Pfile) :
    Int × Pfile :=
  Pfile.erase_list cfails efails pworld (List.range t.m_nfiles) (0, t)

/-- Modelled from the spec: `Pfile::flush` (declared pfile.hpp line 155, body
not in the tree; a const member): forces OS buffers out for an open record.
`ffail` simulates the flush failing.  The table is never modified. -/
def Pfile.flush (ffail : Bool) (pworld : Pworld) (t : Pfile) (fid : Nat) : Int :=
  if Pfile.responsible pworld (t.m_mode.getD fid SMode.shared) then
    if t.m_isopen.getD fid false then (if ffail then PFILE_ERR_FLUSH else 0) else 0
  else 0

/-- Modelled from the spec: `Pfile::sclose` (declared pfile.hpp line 141, body
not in the tree): resolve, consult the policy, delegate or no-op. -/
def Pfile.sclose (cfail : Bool) (pworld : Pworld) (t : Pfile) (fname : String) :
    Int × Pfile :=
  match t.m_fname.findIdx? (fun s => s == fname) with
  | none => (PFILE_ERR_NULL, t)
  | some fid =>
    if Pfile.responsible pworld (t.m_mode.getD fid SMode.shared) then
      Pfile.xclose cfail t fid
    else (0, t)

/-- Modelled from the spec: `Pfile::serase` (declared pfile.hpp line 148, body
not in the tree): resolve, consult the policy, delegate or no-op. -/
def Pfile.serase (cfail efail : Bool) (pworld : Pworld) (t : Pfile)
    (fname : String) : Int × Pfile :=
  match t.m_fname.findIdx? (fun s => s == fname) with
  | none => (PFILE_ERR_NULL, t)
  | some fid =>
    if Pfile.responsible pworld (t.m_mode.getD fid SMode.shared) then
      Pfile.xerase cfail efail t fid
    else (0, t)

/-- Modelled from the spec: `Pfile::sflush` (declared pfile.hpp line 154, body
not in the tree): resolve, consult the policy, delegate or no-op.  Flushing
never modifies the table, so the table is returned unchanged on all paths. -/
def Pfile.sflush (ffail : Bool) (pworld : Pworld) (t : Pfile) (fname : String) :
    Int × Pfile :=
  match t.m_fname.findIdx? (fun s => s == fname) with
  | none => (PFILE_ERR_NULL, t)
  | some fid =>
    if Pfile.responsible pworld (t.m_mode.getD fid SMode.shared) then
      (Pfile.flush ffail pworld t fid, t)
    else (0, t)

/-- `Pfile::get_pos` (pfile.hpp line 182, the one member defined in the header
itself): `return m_fio[fid].fpos;` — a direct read of the stored position,
with no other effect. -/
def Pfile.get_pos (t : Pfile) (fid : Nat) : Int :=
  (t.m_fio.getD fid ⟨false, 0⟩).fpos

/-- Modelled from the spec: `Pfile::seek` (declared pfile.hpp line 179, body
not in the tree): updates the stored position directly, no OS round trip. -/
def Pfile.seek (t : Pfile) (fid : Nat) (pos : Int) : Pfile :=
  { t with m_fio := t.m_fio.set fid ⟨(t.m_fio.getD fid ⟨false, 0⟩).fptr, pos⟩ }

/-- Modelled from the spec: `Pfile::write` (declared pfile.hpp lines 171-172,
body not in the tree): writes `size*num` bytes at `pos` and updates the stored
position to the end of the written range.  The file bytes themselves are
outside the table and not modelled. -/
def Pfile.write (t : Pfile) (fid : Nat) (pos : Int) (size num : Nat) : Pfile :=
  { t with
    m_fio := t.m_fio.set fid ⟨(t.m_fio.getD fid ⟨false, 0⟩).fptr, pos + (size * num : Nat)⟩ }

/-- Modelled from the spec: `Pfile::read` (declared pfile.hpp lines 175-176,
body not in the tree): symmetric to `write`. -/
def Pfile.read (t : Pfile) (fid : Nat) (pos : Int) (size num : Nat) : Pfile :=
  { t with
    m_fio := t.m_fio.set fid ⟨(t.m_fio.getD fid ⟨false, 0⟩).fptr, pos + (size * num : Nat)⟩ }

/-- Modelled from the spec: `Pfile::save` (declared pfile.hpp line 185, body
not in the tree): serializes the logical contents of every record — the
ordered `(id, name, status)` triples, ids being the dense table positions —
and nothing else (no handles or positions).  The context decides only which
task physically writes the store, not the serialized content. -/
def Pfile.save (pworld : Pworld) (t : Pfile) : List (Nat × String × String) :=
  (List.range t.m_nfiles).map (fun i => (i, t.m_fname.getD i "", t.m_fstat.getD i ""))

/-- Modelled from the spec: `Pfile::recover` (declared pfile.hpp line 188,
body not in the tree): rebuilds the table from the saved triples in save
order, every record closed with an invalid handle and position 0.  The spec's
persistence stores only `(id, name, status)`, so recovered records carry the
default shared mode. -/
def Pfile.recover (pworld : Pworld) (s : List (Nat × String × String)) : Pfile :=
  { m_fio := s.map (fun _ => ⟨false, 0⟩)
    m_isopen := s.map (fun _ => false)
    m_fname := s.map (fun x => x.2.1)
    m_fstat := s.map (fun x => x.2.2)
    m_mode := s.map (fun _ => SMode.shared)
    m_nfiles := s.length }

/-- A registration call, as issued by application code: either `add` or
`sadd` with a logical name and a sharing mode. -/
inductive RegCall
| add (fname : String) (mode : SMode)
| sadd (fname : String) (mode : SMode)
deriving DecidableEq

/-- Run a sequence of registration calls against a table, as one simulated
task with context `pworld` would. -/
def runReg (pworld : Pworld) : List RegCall → Pfile → Pfile
  | [], t => t
  | RegCall.add f m :: rest, t => runReg pworld rest (Pfile.add pworld t f m).2
  | RegCall.sadd f m :: rest, t => runReg pworld rest (Pfile.sadd pworld t f m).2

/-- The status `Pfile.close` would report for record `fid` of table `t`:
0 for a non-responsible task or a record that is not open, `PFILE_ERR_CLOSE`
when the simulated physical close fails. -/
def perClose (cfails : Nat → Bool) (pworld : Pworld) (t : Pfile) (fid : Nat) : Int :=
  if Pfile.responsible pworld (t.m_mode.getD fid SMode.shared) then
    if t.m_isopen.getD fid false then (if cfails fid then PFILE_ERR_CLOSE else 0) else 0
  else 0

/-- The status `Pfile.erase` would report for record `fid` of table `t`. -/
def perErase (cfails efails : Nat → Bool) (pworld : Pworld) (t : Pfile)
    (fid : Nat) : Int :=
  if Pfile.responsible pworld (t.m_mode.getD fid SMode.shared) then
    if t.m_isopen.getD fid false ∧ cfails fid then PFILE_ERR_CLOSE
    else if efails fid then PFILE_ERR_ERASE else 0
  else 0

/-- The first nonzero entry of a status list, 0 when there is none: the
"first error encountered" of the best-effort loops. -/
def firstErr : List Int → Int
  | [] => 0
  | s :: rest => if s = 0 then firstErr rest else s

/-- The open flag record `fid` of table `t` ends with after a best-effort
`close_all`: closed exactly when this task is responsible for it, it was open,
and its simulated physical close succeeds; otherwise unchanged. -/
def closedAfter (cfails : Nat → Bool) (pworld : Pworld) (t : Pfile) (fid : Nat) : Bool :=
  if Pfile.responsible pworld (t.m_mode.getD fid SMode.shared) = true ∧
      t.m_isopen.getD fid false = true ∧ cfails fid = false then false
  else t.m_isopen.getD fid false

/-! ## Helper lemmas -/

theorem getD_set_self {α : Type} (l : List α) (i : Nat) (a d : α)
    (h : i < l.length) : (l.set i a).getD i d = a := by
  rw [List.getD_eq_getElem?_getD, List.getElem?_set_self]
  · simp
  · simpa using h

theorem getD_set_selfD {α : Type} (l : List α) (i : Nat) (a : α) :
    (l.set i a).getD i a = a := by
  by_cases h : i < l.length
  · exact getD_set_self l i a a h
  · rw [List.getD_eq_getElem?_getD, List.getElem?_eq_none]
    · rfl
    · simpa using (Nat.le_of_not_lt (by simpa using h))

theorem getD_set_ne {α : Type} (l : List α) (i j : Nat) (a d : α) (h : i ≠ j) :
    (l.set i a).getD j d = l.getD j d := by
  rw [List.getD_eq_getElem?_getD, List.getElem?_set_ne h,
    ← List.getD_eq_getElem?_getD]

theorem getD_map_const {α β : Type} (l : List α) (c : β) (i : Nat) :
    (l.map (fun _ => c)).getD i c = c := by
  induction l generalizing i with
  | nil => rfl
  | cons a rest ih =>
    cases i with
    | zero => rfl
    | succ k =>
      rw [List.map_cons, List.getD_cons_succ]
      exact ih k

/-! ## Claim theorems -/

/-- Claim C9: for every allocated `dcore` with `navbl >= n`, `checkout n`
decrements the free count `navbl` by `n`, advances the bump pointer `next`
by `n`, and returns the pointer value after advancing — the address one past
the end of the newly reserved block, not its start. -/
theorem dcore.checkout_advances_and_returns_end (d : dcore) (n : Nat)
    (ha : d.allocated = true) (hn : n ≤ d.navbl) :
    d.checkout n =
      Except.ok (d.next + n, { d with navbl := d.navbl - n, next := d.next + n }) ∧
    (0 < n → d.next + n ≠ d.next) := by
  refine ⟨?_, ?_⟩
  · simp [dcore.checkout, ha, hn]
  · omega

/-- Claim C9 witness: a concrete allocated arena with 4 elements used and 6
free; checking out 3 returns offset 7 (one past the reserved block 4..6). -/
theorem dcore.checkout_advances_and_returns_end_witness :
    dcore.checkout ⟨10, 6, 4, true⟩ 3 =
      Except.ok (7, (⟨10, 3, 7, true⟩ : dcore)) ∧ (0 < 3 → (7 : Nat) ≠ 4) := by
  have h := dcore.checkout_advances_and_returns_end ⟨10, 6, 4, true⟩ 3 rfl (by decide)
  exact h

/-- Claim C10: for an allocated tensor, `deallocate` nulls `M_BUFFER` but
leaves `M_POINTER` and `M_IS_ALLOCATED` alone, so `is_allocated()` still
returns true afterwards; by contrast `unassign` on an assigned tensor resets
the pointers, counters and both flags to their defaults. -/
theorem tensor.deallocate_keeps_allocated_flag (t : tensor)
    (h : t.M_IS_ALLOCATED = true) :
    t.deallocate = Except.ok { t with M_BUFFER := none } ∧
    tensor.is_allocated { t with M_BUFFER := none } = true ∧
    ({ t with M_BUFFER := none } : tensor).M_POINTER = t.M_POINTER ∧
    ∀ s : tensor, s.M_IS_ASSIGNED = true →
      s.unassign = Except.ok
        (tensor.m_set_default { s with M_POINTER := none, M_BUFFER := none }) ∧
      tensor.is_allocated
        (tensor.m_set_default { s with M_POINTER := none, M_BUFFER := none }) = false ∧
      tensor.is_assigned
        (tensor.m_set_default { s with M_POINTER := none, M_BUFFER := none }) = false := by
  refine ⟨?_, ?_, rfl, ?_⟩
  · simp [tensor.deallocate, h]
  · simp [tensor.is_allocated, h]
  · intro s hs
    refine ⟨?_, rfl, rfl⟩
    simp [tensor.unassign, hs]

/-- Claim C10 witness: concrete allocated and assigned tensors. -/
theorem tensor.deallocate_keeps_allocated_flag_witness :
    tensor.deallocate ⟨some 1, some 1, [2], [1], 1, 2, 16, true, false⟩ =
      Except.ok (⟨none, some 1, [2], [1], 1, 2, 16, true, false⟩ : tensor) ∧
    tensor.is_allocated ⟨none, some 1, [2], [1], 1, 2, 16, true, false⟩ = true ∧
    tensor.unassign ⟨some 2, some 2, [3], [1], 1, 3, 8, false, true⟩ =
      Except.ok (⟨none, none, [3], [1], 1, 0, 0, false, false⟩ : tensor) := by
  have h := tensor.deallocate_keeps_allocated_flag
    ⟨some 1, some 1, [2], [1], 1, 2, 16, true, false⟩ rfl
  exact ⟨h.1, h.2.1, (h.2.2.2 ⟨some 2, some 2, [3], [1], 1, 3, 8, false, true⟩ rfl).1⟩

/-- Claim C1: id assignment is deterministic in the registration sequence
alone.  Two simulated tasks with arbitrary (possibly different) contexts that
execute the same sequence of `add`/`sadd` calls in the same order from the
same starting table end up with identical tables, in particular identical
id-to-name mappings (`m_fname`, indexed by id); the assigned ids never depend
on the task's rank. -/
theorem runReg_rank_independent (script : List RegCall) (pw1 pw2 : Pworld)
    (t : Pfile) :
    runReg pw1 script t = runReg pw2 script t ∧
    (runReg pw1 script t).m_fname = (runReg pw2 script t).m_fname := by
  have key : ∀ (s : List RegCall) (u : Pfile), runReg pw1 s u = runReg pw2 s u := by
    intro s
    induction s with
    | nil => intro u; rfl
    | cons c rest ih =>
      intro u
      cases c with
      | add f m =>
        show runReg pw1 rest (Pfile.add pw1 u f m).2 =
          runReg pw2 rest (Pfile.add pw2 u f m).2
        rw [show Pfile.add pw1 u f m = Pfile.add pw2 u f m from rfl]
        exact ih _
      | sadd f m =>
        show runReg pw1 rest (Pfile.sadd pw1 u f m).2 =
          runReg pw2 rest (Pfile.sadd pw2 u f m).2
        rw [show Pfile.sadd pw1 u f m = Pfile.sadd pw2 u f m from rfl]
        exact ih _
  exact ⟨key script t, by rw [key script t]⟩

/-- Claim C3: the participation policy is a pure function of the context and
the sharing mode.  For a shared file and a context family of `N` tasks with a
designated root, exactly one task — the root — gets `responsible = true`; for
a private file every task gets `true`. -/
theorem Pfile.responsible_policy (N root : Nat) (hroot : root < N) :
    ((Finset.range N).filter
      (fun r => Pfile.responsible ⟨r, N, root⟩ SMode.shared = true)).card = 1 ∧
    ((Finset.range N).filter
      (fun r => Pfile.responsible ⟨r, N, root⟩ SMode.shared = true)) = {root} ∧
    (∀ r, r < N → Pfile.responsible ⟨r, N, root⟩ SMode.priv = true) ∧
    (∀ r, r < N →
      (Pfile.responsible ⟨r, N, root⟩ SMode.shared = true ↔ r = root)) := by
  have hiff : ∀ r : Nat, Pfile.responsible ⟨r, N, root⟩ SMode.shared = true ↔ r = root := by
    intro r
    simp [Pfile.responsible]
  have hfilter : ((Finset.range N).filter
      (fun r => Pfile.responsible ⟨r, N, root⟩ SMode.shared = true)) = {root} := by
    ext x
    simp only [Finset.mem_filter, Finset.mem_range, Finset.mem_singleton, hiff]
    constructor
    · rintro ⟨_, hx⟩; exact hx
    · intro hx; exact ⟨by omega, hx⟩
  refine ⟨?_, hfilter, ?_, ?_⟩
  · rw [hfilter]; exact Finset.card_singleton root
  · intro r hr; rfl
  · intro r hr; exact hiff r

/-- Claim C3 witness: four tasks with root 2. -/
theorem Pfile.responsible_policy_witness :
    ((Finset.range 4).filter
      (fun r => Pfile.responsible ⟨r, 4, 2⟩ SMode.shared = true)).card = 1 ∧
    Pfile.responsible ⟨2, 4, 2⟩ SMode.shared = true ∧
    Pfile.responsible ⟨1, 4, 2⟩ SMode.shared = false ∧
    Pfile.responsible ⟨1, 4, 2⟩ SMode.priv = true := by
  have h := Pfile.responsible_policy 4 2 (by decide)
  exact ⟨h.1, (h.2.2.2 2 (by decide)).mpr rfl, by decide, h.2.2.1 1 (by decide)⟩

/-- Claim C7: registering a name longer than `PFILE_LEN` (32) characters fails
with `PFILE_ERR_SLEN` and is atomic: the table is returned unchanged, no id is
consumed, and the over-long name is never stored (truncated or otherwise). -/
theorem Pfile.add_name_too_long_atomic (pworld : Pworld) (t : Pfile)
    (fname : String) (mode : SMode) (hlen : PFILE_LEN < fname.length) :
    Pfile.xadd t fname mode = (PFILE_ERR_SLEN, t) ∧
    Pfile.add pworld t fname mode = (PFILE_ERR_SLEN, t) ∧
    (Pfile.add pworld t fname mode).2.m_nfiles = t.m_nfiles ∧
    (¬ fname ∈ t.m_fname → Pfile.sadd pworld t fname mode = (PFILE_ERR_SLEN, t)) := by
  have hx : Pfile.xadd t fname mode = (PFILE_ERR_SLEN, t) := by
    simp [Pfile.xadd, hlen]
  refine ⟨hx, hx, by rw [show Pfile.add pworld t fname mode = (PFILE_ERR_SLEN, t) from hx], ?_⟩
  intro hmem
  have hnone : t.m_fname.findIdx? (fun s => s == fname) = none := by
    rw [List.findIdx?_eq_none_iff]
    intro x hx2
    simp only [beq_eq_false_iff_ne]
    exact fun he => hmem (he ▸ hx2)
  simp [Pfile.sadd, hnone, Pfile.add, hx]

/-- Claim C7 witness: a 40-character name against an empty table. -/
theorem Pfile.add_name_too_long_atomic_witness :
    Pfile.xadd ⟨[], [], [], [], [], 0⟩
      "aaaaaaaaaaaaaaaaaaaaaaaaaaaaaaaaaaaaaaaa" SMode.shared =
      (PFILE_ERR_SLEN, (⟨[], [], [], [], [], 0⟩ : Pfile)) ∧
    Pfile.sadd ⟨0, 1, 0⟩ ⟨[], [], [], [], [], 0⟩
      "aaaaaaaaaaaaaaaaaaaaaaaaaaaaaaaaaaaaaaaa" SMode.shared =
      (PFILE_ERR_SLEN, (⟨[], [], [], [], [], 0⟩ : Pfile)) := by
  have h := Pfile.add_name_too_long_atomic ⟨0, 1, 0⟩ ⟨[], [], [], [], [], 0⟩
    "aaaaaaaaaaaaaaaaaaaaaaaaaaaaaaaaaaaaaaaa" SMode.shared (by decide)
  exact ⟨h.1, h.2.2.2 (by simp)⟩

/-- Claim C5: for an open record with id `fid`, `get_pos` returns exactly the
position stored in the record — the last value written by `open`, `seek`,
`write` or `read` — and, being a plain field read, has no effect on the table
(each mutator below is a distinct state, and `get_pos` is a pure function of
the table). -/
theorem Pfile.get_pos_stored_position (t : Pfile) (fid : Nat) (pos : Int)
    (size num : Nat) (fstat : String) (h : fid < t.m_fio.length) :
    Pfile.get_pos t fid = (t.m_fio.getD fid ⟨false, 0⟩).fpos ∧
    Pfile.get_pos (t.seek fid pos) fid = pos ∧
    Pfile.get_pos (t.write fid pos size num) fid = pos + (size * num : Nat) ∧
    Pfile.get_pos (t.read fid pos size num) fid = pos + (size * num : Nat) ∧
    (t.m_isopen.getD fid false = false →
      Pfile.get_pos (Pfile.xopen false t fid fstat).2 fid = 0) ∧
    (t.seek fid pos).m_fname = t.m_fname ∧
    (t.seek fid pos).m_isopen = t.m_isopen := by
  refine ⟨rfl, ?_, ?_, ?_, ?_, rfl, rfl⟩
  · simp only [Pfile.get_pos, Pfile.seek]
    rw [getD_set_self _ _ _ _ h]
  · simp only [Pfile.get_pos, Pfile.write]
    rw [getD_set_self _ _ _ _ h]
  · simp only [Pfile.get_pos, Pfile.read]
    rw [getD_set_self _ _ _ _ h]
  · intro hclosed
    simp only [Pfile.get_pos, Pfile.xopen, hclosed]
    rw [if_neg (by simp), if_neg (by simp)]
    rw [getD_set_self _ _ _ _ h]

/-- Claim C5 witness: a one-record table; seek to 7 then read it back, write
2*3 bytes at 7 and read back 13. -/
theorem Pfile.get_pos_stored_position_witness :
    Pfile.get_pos (Pfile.seek ⟨[⟨true, 5⟩], [true], ["log"], ["w+b"], [SMode.shared], 1⟩ 0 7) 0 = 7 ∧
    Pfile.get_pos (Pfile.write ⟨[⟨true, 5⟩], [true], ["log"], ["w+b"], [SMode.shared], 1⟩ 0 7 2 3) 0 = 7 + (2 * 3 : Nat) := by
  have h := Pfile.get_pos_stored_position
    ⟨[⟨true, 5⟩], [true], ["log"], ["w+b"], [SMode.shared], 1⟩ 0 7 2 3 "w" (by decide)
  exact ⟨h.2.1, h.2.2.1⟩

/-- Claim C2: every safe entry point (`sopen`, `sclose`, `serase`, `sflush`)
called by a task that is not responsible for the named file returns success
(0) and leaves the calling task's table entirely unchanged — in particular a
closed local record stays closed — and no physical operation is attempted
(the simulated OS outcomes `osnull`, `cfail`, `efail`, `ffail` are never
consulted). -/
theorem Pfile.safe_noop_when_not_responsible (osnull cfail efail ffail : Bool)
    (pworld : Pworld) (t : Pfile) (fname fstat : String) (fid : Nat)
    (hfind : t.m_fname.findIdx? (fun s => s == fname) = some fid)
    (hresp : Pfile.responsible pworld (t.m_mode.getD fid SMode.shared) = false) :
    Pfile.sopen osnull pworld t fname fstat = (0, t) ∧
    Pfile.sclose cfail pworld t fname = (0, t) ∧
    Pfile.serase cfail efail pworld t fname = (0, t) ∧
    Pfile.sflush ffail pworld t fname = (0, t) := by
  refine ⟨?_, ?_, ?_, ?_⟩ <;>
    [skip; skip; skip; skip] <;>
    first
    | (simp only [Pfile.sopen, hfind]; rw [hresp]; simp)
    | (simp only [Pfile.sclose, hfind]; rw [hresp]; simp)
    | (simp only [Pfile.serase, hfind]; rw [hresp]; simp)
    | (simp only [Pfile.sflush, hfind]; rw [hresp]; simp)

/-- Claim C2 witness: task 1 of 4 (root 0) calling the safe entry points on a
shared closed record named "log": all four return success with the table
unchanged. -/
theorem Pfile.safe_noop_when_not_responsible_witness :
    Pfile.sopen true ⟨1, 4, 0⟩ ⟨[⟨false, 0⟩], [false], ["log"], [""], [SMode.shared], 1⟩ "log" "w+b" =
      (0, (⟨[⟨false, 0⟩], [false], ["log"], [""], [SMode.shared], 1⟩ : Pfile)) ∧
    Pfile.sclose true ⟨1, 4, 0⟩ ⟨[⟨false, 0⟩], [false], ["log"], [""], [SMode.shared], 1⟩ "log" =
      (0, (⟨[⟨false, 0⟩], [false], ["log"], [""], [SMode.shared], 1⟩ : Pfile)) ∧
    Pfile.serase true true ⟨1, 4, 0⟩ ⟨[⟨false, 0⟩], [false], ["log"], [""], [SMode.shared], 1⟩ "log" =
      (0, (⟨[⟨false, 0⟩], [false], ["log"], [""], [SMode.shared], 1⟩ : Pfile)) ∧
    Pfile.sflush true ⟨1, 4, 0⟩ ⟨[⟨false, 0⟩], [false], ["log"], [""], [SMode.shared], 1⟩ "log" =
      (0, (⟨[⟨false, 0⟩], [false], ["log"], [""], [SMode.shared], 1⟩ : Pfile)) := by
  have h := Pfile.safe_noop_when_not_responsible true true true true ⟨1, 4, 0⟩
    ⟨[⟨false, 0⟩], [false], ["log"], [""], [SMode.shared], 1⟩ "log" "w+b" 0
    (by decide) (by decide)
  exact h

/-- Claim C4: persistence round-trips exactly.  `save` followed by `recover`
— by any context, i.e. independent of the recovering task count —
reconstructs a table whose ordered `(id, name, status)` triples are exactly
the saved ones (the saved table's id assignment in save order), and every
recovered record is in the closed state. -/
theorem Pfile.save_recover_roundtrip (pw1 pw2 pw3 : Pworld) (t : Pfile) :
    Pfile.save pw2 (Pfile.recover pw1 (Pfile.save pw1 t)) = Pfile.save pw1 t ∧
    Pfile.recover pw1 (Pfile.save pw1 t) = Pfile.recover pw3 (Pfile.save pw1 t) ∧
    (∀ fid, (Pfile.recover pw1 (Pfile.save pw1 t)).m_isopen.getD fid false = false) ∧
    (∀ fid, (Pfile.recover pw1 (Pfile.save pw1 t)).m_fio.getD fid ⟨false, 0⟩ =
      ⟨false, 0⟩) ∧
    (Pfile.recover pw1 (Pfile.save pw1 t)).m_nfiles = t.m_nfiles := by
  refine ⟨?_, rfl, ?_, ?_, ?_⟩
  · unfold Pfile.save Pfile.recover
    simp only [List.length_map, List.length_range]
    apply List.map_congr_left
    intro i hi
    have hi' : i < t.m_nfiles := List.mem_range.mp hi
    rw [List.map_map, List.map_map]
    rw [List.getD_eq_getElem _ _ (by simpa using hi'),
      List.getD_eq_getElem _ _ (by simpa using hi')]
    simp
  · intro fid
    exact getD_map_const _ _ fid
  · intro fid
    exact getD_map_const _ _ fid
  · simp [Pfile.save, Pfile.recover]

/-! ## Best-effort loop lemmas -/

theorem perClose_congr (cfails : Nat → Bool) (pw : Pworld) (u t : Pfile) (j : Nat)
    (h1 : u.m_mode = t.m_mode) (h2 : u.m_isopen.getD j false = t.m_isopen.getD j false) :
    perClose cfails pw u j = perClose cfails pw t j := by
  unfold perClose
  rw [h1, h2]

theorem closedAfter_congr (cfails : Nat → Bool) (pw : Pworld) (u t : Pfile) (j : Nat)
    (h1 : u.m_mode = t.m_mode) (h2 : u.m_isopen.getD j false = t.m_isopen.getD j false) :
    closedAfter cfails pw u j = closedAfter cfails pw t j := by
  unfold closedAfter
  rw [h1, h2]

theorem close_fst (cfails : Nat → Bool) (pw : Pworld) (t : Pfile) (fid : Nat) :
    (Pfile.close (cfails fid) pw t fid).1 = perClose cfails pw t fid := by
  unfold Pfile.close Pfile.xclose perClose
  split_ifs <;> rfl

theorem close_snd_fields (c : Bool) (pw : Pworld) (t : Pfile) (fid : Nat) :
    (Pfile.close c pw t fid).2.m_mode = t.m_mode ∧
    (Pfile.close c pw t fid).2.m_fname = t.m_fname ∧
    (Pfile.close c pw t fid).2.m_fstat = t.m_fstat ∧
    (Pfile.close c pw t fid).2.m_nfiles = t.m_nfiles := by
  unfold Pfile.close Pfile.xclose
  split_ifs <;> exact ⟨rfl, rfl, rfl, rfl⟩

theorem close_isopen_ne (c : Bool) (pw : Pworld) (t : Pfile) (fid j : Nat)
    (h : fid ≠ j) :
    (Pfile.close c pw t fid).2.m_isopen.getD j false = t.m_isopen.getD j false := by
  unfold Pfile.close Pfile.xclose
  split_ifs <;> first | rfl | exact getD_set_ne _ _ _ _ _ h

theorem close_isopen_self (cfails : Nat → Bool) (pw : Pworld) (t : Pfile) (fid : Nat) :
    (Pfile.close (cfails fid) pw t fid).2.m_isopen.getD fid false =
      closedAfter cfails pw t fid := by
  unfold Pfile.close Pfile.xclose closedAfter
  split_ifs <;> first
    | rfl
    | exact getD_set_selfD _ _ _
    | simp_all

theorem close_list_fst_stuck (cfails : Nat → Bool) (pw : Pworld) (L : List Nat)
    (acc : Int × Pfile) (h : acc.1 ≠ 0) :
    (Pfile.close_list cfails pw L acc).1 = acc.1 := by
  induction L generalizing acc with
  | nil => rfl
  | cons fid rest ih =>
    simp only [Pfile.close_list]
    rw [if_neg h]
    exact ih _ h

theorem close_list_fst (cfails : Nat → Bool) (pw : Pworld) (L : List Nat)
    (t : Pfile) (hnd : L.Nodup) :
    (Pfile.close_list cfails pw L (0, t)).1 =
      firstErr (L.map (perClose cfails pw t)) := by
  induction L generalizing t with
  | nil => rfl
  | cons fid rest ih =>
    obtain ⟨hfid, hnd'⟩ := List.nodup_cons.mp hnd
    simp only [Pfile.close_list, List.map_cons, firstErr]
    rw [if_pos trivial]
    by_cases h0 : (Pfile.close (cfails fid) pw t fid).1 = 0
    · rw [h0, if_pos (by rw [← close_fst cfails pw t fid]; exact h0)]
      rw [ih _ hnd']
      congr 1
      apply List.map_congr_left
      intro j hj
      exact perClose_congr cfails pw _ t j
        (close_snd_fields _ pw t fid).1
        (close_isopen_ne _ pw t fid j (fun he => hfid (he ▸ hj)))
    · rw [close_list_fst_stuck cfails pw rest _ h0,
        if_neg (by rw [← close_fst cfails pw t fid]; exact h0)]
      exact close_fst cfails pw t fid

theorem close_list_isopen (cfails : Nat → Bool) (pw : Pworld) (L : List Nat)
    (a : Int) (t : Pfile) (j : Nat) (hnd : L.Nodup) :
    (Pfile.close_list cfails pw L (a, t)).2.m_isopen.getD j false =
      if j ∈ L then closedAfter cfails pw t j else t.m_isopen.getD j false := by
  induction L generalizing a t with
  | nil => simp [Pfile.close_list]
  | cons fid rest ih =>
    obtain ⟨hfid, hnd'⟩ := List.nodup_cons.mp hnd
    simp only [Pfile.close_list]
    rw [ih _ _ hnd']
    by_cases hj : j = fid
    · subst hj
      rw [if_neg hfid, close_isopen_self cfails pw t j,
        if_pos (List.mem_cons_self j rest)]
    · have hne : fid ≠ j := fun he => hj he.symm
      have hmode := (close_snd_fields (cfails fid) pw t fid).1
      have hio := close_isopen_ne (cfails fid) pw t fid j hne
      by_cases hjr : j ∈ rest
      · rw [if_pos hjr, if_pos (List.mem_cons_of_mem fid hjr)]
        exact closedAfter_congr cfails pw _ t j hmode hio
      · rw [if_neg hjr, if_neg (by simp [hj, hjr]), hio]

theorem close_list_fields (cfails : Nat → Bool) (pw : Pworld) (L : List Nat)
    (acc : Int × Pfile) :
    (Pfile.close_list cfails pw L acc).2.m_fname = acc.2.m_fname ∧
    (Pfile.close_list cfails pw L acc).2.m_fstat = acc.2.m_fstat ∧
    (Pfile.close_list cfails pw L acc).2.m_mode = acc.2.m_mode ∧
    (Pfile.close_list cfails pw L acc).2.m_nfiles = acc.2.m_nfiles := by
  induction L generalizing acc with
  | nil => exact ⟨rfl, rfl, rfl, rfl⟩
  | cons fid rest ih =>
    simp only [Pfile.close_list]
    obtain ⟨i1, i2, i3, i4⟩ := ih
      (if acc.1 = 0 then (Pfile.close (cfails fid) pw acc.2 fid).1 else acc.1,
       (Pfile.close (cfails fid) pw acc.2 fid).2)
    obtain ⟨c1, c2, c3, c4⟩ := close_snd_fields (cfails fid) pw acc.2 fid
    exact ⟨i1.trans c2, i2.trans c3, i3.trans c1, i4.trans c4⟩

theorem perErase_congr (cfails efails : Nat → Bool) (pw : Pworld) (u t : Pfile)
    (j : Nat) (h1 : u.m_mode = t.m_mode)
    (h2 : u.m_isopen.getD j false = t.m_isopen.getD j false) :
    perErase cfails efails pw u j = perErase cfails efails pw t j := by
  unfold perErase
  rw [h1, h2]

theorem erase_fst (cfails efails : Nat → Bool) (pw : Pworld) (t : Pfile) (fid : Nat) :
    (Pfile.erase (cfails fid) (efails fid) pw t fid).1 =
      perErase cfails efails pw t fid := by
  unfold Pfile.erase Pfile.xerase perErase
  split_ifs <;> rfl

theorem erase_snd_fields (c e : Bool) (pw : Pworld) (t : Pfile) (fid : Nat) :
    (Pfile.erase c e pw t fid).2.m_mode = t.m_mode ∧
    (Pfile.erase c e pw t fid).2.m_nfiles = t.m_nfiles := by
  unfold Pfile.erase Pfile.xerase
  split_ifs <;> exact ⟨rfl, rfl⟩

theorem erase_isopen_ne (c e : Bool) (pw : Pworld) (t : Pfile) (fid j : Nat)
    (h : fid ≠ j) :
    (Pfile.erase c e pw t fid).2.m_isopen.getD j false = t.m_isopen.getD j false := by
  unfold Pfile.erase Pfile.xerase
  split_ifs <;> first | rfl | exact getD_set_ne _ _ _ _ _ h

theorem erase_fname_ne (c e : Bool) (pw : Pworld) (t : Pfile) (fid j : Nat)
    (h : fid ≠ j) :
    (Pfile.erase c e pw t fid).2.m_fname.getD j "" = t.m_fname.getD j "" := by
  unfold Pfile.erase Pfile.xerase
  split_ifs <;> first | rfl | exact getD_set_ne _ _ _ _ _ h

theorem erase_isopen_self (c e : Bool) (pw : Pworld) (t : Pfile) (fid : Nat) :
    (Pfile.erase c e pw t fid).2.m_isopen.getD fid false =
      (if Pfile.responsible pw (t.m_mode.getD fid SMode.shared) = true then false
       else t.m_isopen.getD fid false) := by
  unfold Pfile.erase Pfile.xerase
  split_ifs <;> first | rfl | exact getD_set_selfD _ _ _

theorem erase_fname_self (c e : Bool) (pw : Pworld) (t : Pfile) (fid : Nat) :
    (Pfile.erase c e pw t fid).2.m_fname.getD fid "" =
      (if Pfile.responsible pw (t.m_mode.getD fid SMode.shared) = true then ""
       else t.m_fname.getD fid "") := by
  unfold Pfile.erase Pfile.xerase
  split_ifs <;> first | rfl | exact getD_set_selfD _ _ _

theorem erase_list_fst_stuck (cfails efails : Nat → Bool) (pw : Pworld)
    (L : List Nat) (acc : Int × Pfile) (h : acc.1 ≠ 0) :
    (Pfile.erase_list cfails efails pw L acc).1 = acc.1 := by
  induction L generalizing acc with
  | nil => rfl
  | cons fid rest ih =>
    simp only [Pfile.erase_list]
    rw [if_neg h]
    exact ih _ h

theorem erase_list_fst (cfails efails : Nat → Bool) (pw : Pworld) (L : List Nat)
    (t : Pfile) (hnd : L.Nodup) :
    (Pfile.erase_list cfails efails pw L (0, t)).1 =
      firstErr (L.map (perErase cfails efails pw t)) := by
  induction L generalizing t with
  | nil => rfl
  | cons fid rest ih =>
    obtain ⟨hfid, hnd'⟩ := List.nodup_cons.mp hnd
    simp only [Pfile.erase_list, List.map_cons, firstErr]
    rw [if_pos trivial]
    by_cases h0 : (Pfile.erase (cfails fid) (efails fid) pw t fid).1 = 0
    · rw [h0, if_pos (by rw [← erase_fst cfails efails pw t fid]; exact h0)]
      rw [ih _ hnd']
      congr 1
      apply List.map_congr_left
      intro j hj
      exact perErase_congr cfails efails pw _ t j
        (erase_snd_fields _ _ pw t fid).1
        (erase_isopen_ne _ _ pw t fid j (fun he => hfid (he ▸ hj)))
    · rw [erase_list_fst_stuck cfails efails pw rest _ h0,
        if_neg (by rw [← erase_fst cfails efails pw t fid]; exact h0)]
      exact erase_fst cfails efails pw t fid

theorem erase_list_fname (cfails efails : Nat → Bool) (pw : Pworld) (L : List Nat)
    (a : Int) (t : Pfile) (j : Nat) (hnd : L.Nodup) :
    (Pfile.erase_list cfails efails pw L (a, t)).2.m_fname.getD j "" =
      if j ∈ L then
        (if Pfile.responsible pw (t.m_mode.getD j SMode.shared) = true then ""
         else t.m_fname.getD j "")
      else t.m_fname.getD j "" := by
  induction L generalizing a t with
  | nil => simp [Pfile.erase_list]
  | cons fid rest ih =>
    obtain ⟨hfid, hnd'⟩ := List.nodup_cons.mp hnd
    simp only [Pfile.erase_list]
    rw [ih _ _ hnd']
    by_cases hj : j = fid
    · subst hj
      rw [if_neg hfid, erase_fname_self _ _ pw t j,
        if_pos (List.mem_cons_self j rest)]
    · have hne : fid ≠ j := fun he => hj he.symm
      have hmode := (erase_snd_fields (cfails fid) (efails fid) pw t fid).1
      have hfn := erase_fname_ne (cfails fid) (efails fid) pw t fid j hne
      by_cases hjr : j ∈ rest
      · rw [if_pos hjr, if_pos (List.mem_cons_of_mem fid hjr), hmode, hfn]
      · rw [if_neg hjr, if_neg (by simp [hj, hjr]), hfn]

theorem erase_list_isopen (cfails efails : Nat → Bool) (pw : Pworld) (L : List Nat)
    (a : Int) (t : Pfile) (j : Nat) (hnd : L.Nodup) :
    (Pfile.erase_list cfails efails pw L (a, t)).2.m_isopen.getD j false =
      if j ∈ L then
        (if Pfile.responsible pw (t.m_mode.getD j SMode.shared) = true then false
         else t.m_isopen.getD j false)
      else t.m_isopen.getD j false := by
  induction L generalizing a t with
  | nil => simp [Pfile.erase_list]
  | cons fid rest ih =>
    obtain ⟨hfid, hnd'⟩ := List.nodup_cons.mp hnd
    simp only [Pfile.erase_list]
    rw [ih _ _ hnd']
    by_cases hj : j = fid
    · subst hj
      rw [if_neg hfid, erase_isopen_self _ _ pw t j,
        if_pos (List.mem_cons_self j rest)]
    · have hne : fid ≠ j := fun he => hj he.symm
      have hmode := (erase_snd_fields (cfails fid) (efails fid) pw t fid).1
      have hio := erase_isopen_ne (cfails fid) (efails fid) pw t fid j hne
      by_cases hjr : j ∈ rest
      · rw [if_pos hjr, if_pos (List.mem_cons_of_mem fid hjr), hmode, hio]
      · rw [if_neg hjr, if_neg (by simp [hj, hjr]), hio]

/-- Claim C6: `close_all` and `erase_all` are best-effort.  For every table,
every record is attempted even when another record's transition fails: after
`close_all` each record `fid` ends with the open flag `closedAfter` predicts
from its own simulated outcome alone (so a failure at one record never stops
the others from being closed), and the returned status is the first error in
the per-record status list (0 when none fails).  Likewise `erase_all` drops
every responsible record and returns the first per-record error. -/
theorem Pfile.close_all_erase_all_best_effort (cfails efails : Nat → Bool)
    (pworld : Pworld) (t : Pfile) (fid : Nat) (hfid : fid < t.m_nfiles) :
    (Pfile.close_all cfails pworld t).1 =
      firstErr ((List.range t.m_nfiles).map (perClose cfails pworld t)) ∧
    (Pfile.close_all cfails pworld t).2.m_isopen.getD fid false =
      closedAfter cfails pworld t fid ∧
    (Pfile.close_all cfails pworld t).2.m_fname = t.m_fname ∧
    (Pfile.close_all cfails pworld t).2.m_nfiles = t.m_nfiles ∧
    (Pfile.erase_all cfails efails pworld t).1 =
      firstErr ((List.range t.m_nfiles).map (perErase cfails efails pworld t)) ∧
    (Pfile.erase_all cfails efails pworld t).2.m_fname.getD fid "" =
      (if Pfile.responsible pworld (t.m_mode.getD fid SMode.shared) = true then ""
       else t.m_fname.getD fid "") ∧
    (Pfile.erase_all cfails efails pworld t).2.m_isopen.getD fid false =
      (if Pfile.responsible pworld (t.m_mode.getD fid SMode.shared) = true then false
       else t.m_isopen.getD fid false) := by
  have hnd := List.nodup_range t.m_nfiles
  have hmem : fid ∈ List.range t.m_nfiles := List.mem_range.mpr hfid
  refine ⟨?_, ?_, ?_, ?_, ?_, ?_, ?_⟩
  · exact close_list_fst cfails pworld _ t hnd
  · rw [show Pfile.close_all cfails pworld t =
      Pfile.close_list cfails pworld (List.range t.m_nfiles) (0, t) from rfl]
    rw [close_list_isopen cfails pworld _ 0 t fid hnd, if_pos hmem]
  · exact (close_list_fields cfails pworld _ (0, t)).1
  · exact (close_list_fields cfails pworld _ (0, t)).2.2.2
  · exact erase_list_fst cfails efails pworld _ t hnd
  · rw [show Pfile.erase_all cfails efails pworld t =
      Pfile.erase_list cfails efails pworld (List.range t.m_nfiles) (0, t) from rfl]
    rw [erase_list_fname cfails efails pworld _ 0 t fid hnd, if_pos hmem]
  · rw [show Pfile.erase_all cfails efails pworld t =
      Pfile.erase_list cfails efails pworld (List.range t.m_nfiles) (0, t) from rfl]
    rw [erase_list_isopen cfails efails pworld _ 0 t fid hnd, if_pos hmem]

/-- Claim C6 witness: three open private records where only the second's
physical close fails.  `close_all` still closes the first and third, leaves
the second open, and reports the second's `PFILE_ERR_CLOSE`. -/
theorem Pfile.close_all_erase_all_best_effort_witness :
    (Pfile.close_all (fun i => i == 1) ⟨0, 1, 0⟩
      ⟨[⟨true, 0⟩, ⟨true, 0⟩, ⟨true, 0⟩], [true, true, true], ["a", "b", "c"],
       ["w", "w", "w"], [SMode.priv, SMode.priv, SMode.priv], 3⟩).1 = PFILE_ERR_CLOSE ∧
    (Pfile.close_all (fun i => i == 1) ⟨0, 1, 0⟩
      ⟨[⟨true, 0⟩, ⟨true, 0⟩, ⟨true, 0⟩], [true, true, true], ["a", "b", "c"],
       ["w", "w", "w"], [SMode.priv, SMode.priv, SMode.priv], 3⟩).2.m_isopen.getD 0 false = false ∧
    (Pfile.close_all (fun i => i == 1) ⟨0, 1, 0⟩
      ⟨[⟨true, 0⟩, ⟨true, 0⟩, ⟨true, 0⟩], [true, true, true], ["a", "b", "c"],
       ["w", "w", "w"], [SMode.priv, SMode.priv, SMode.priv], 3⟩).2.m_isopen.getD 1 false = true ∧
    (Pfile.close_all (fun i => i == 1) ⟨0, 1, 0⟩
      ⟨[⟨true, 0⟩, ⟨true, 0⟩, ⟨true, 0⟩], [true, true, true], ["a", "b", "c"],
       ["w", "w", "w"], [SMode.priv, SMode.priv, SMode.priv], 3⟩).2.m_isopen.getD 2 false = false := by
  have h0 := Pfile.close_all_erase_all_best_effort (fun i => i == 1) (fun _ => false)
    ⟨0, 1, 0⟩ ⟨[⟨true, 0⟩, ⟨true, 0⟩, ⟨true, 0⟩], [true, true, true], ["a", "b", "c"],
     ["w", "w", "w"], [SMode.priv, SMode.priv, SMode.priv], 3⟩ 0 (by decide)
  have h1 := Pfile.close_all_erase_all_best_effort (fun i => i == 1) (fun _ => false)
    ⟨0, 1, 0⟩ ⟨[⟨true, 0⟩, ⟨true, 0⟩, ⟨true, 0⟩], [true, true, true], ["a", "b", "c"],
     ["w", "w", "w"], [SMode.priv, SMode.priv, SMode.priv], 3⟩ 1 (by decide)
  have h2 := Pfile.close_all_erase_all_best_effort (fun i => i == 1) (fun _ => false)
    ⟨0, 1, 0⟩ ⟨[⟨true, 0⟩, ⟨true, 0⟩, ⟨true, 0⟩], [true, true, true], ["a", "b", "c"],
     ["w", "w", "w"], [SMode.priv, SMode.priv, SMode.priv], 3⟩ 2 (by decide)
  refine ⟨h0.1.trans (by decide), h0.2.1.trans (by decide),
    h1.2.1.trans (by decide), h2.2.1.trans (by decide)⟩

/-- Claim C8: the six `PFILE_ERR_*` values are pairwise distinct negative
integers, every id an id-returning operation assigns is non-negative, and for
`xadd`/`sadd`/`saddopen` the sign of the return value alone distinguishes a
successfully assigned id from an error code: non-negative returns are ids
(for `xadd`, exactly the next id `m_nfiles`, consuming one id), negative
returns are among the error codes. -/
theorem Pfile.error_codes_sign_distinguishes (osnull : Bool) (pworld : Pworld)
    (t : Pfile) (fname fstat : String) (mode : SMode) :
    ([PFILE_ERR_NULL, PFILE_ERR_OPEN, PFILE_ERR_CLOSE, PFILE_ERR_ERASE,
        PFILE_ERR_FLUSH, PFILE_ERR_SLEN].Nodup ∧
      ∀ e ∈ [PFILE_ERR_NULL, PFILE_ERR_OPEN, PFILE_ERR_CLOSE, PFILE_ERR_ERASE,
        PFILE_ERR_FLUSH, PFILE_ERR_SLEN], e < 0) ∧
    (0 ≤ (Pfile.xadd t fname mode).1 ∨
      (Pfile.xadd t fname mode).1 = PFILE_ERR_SLEN) ∧
    (0 ≤ (Pfile.sadd pworld t fname mode).1 ∨
      (Pfile.sadd pworld t fname mode).1 = PFILE_ERR_SLEN) ∧
    (0 ≤ (Pfile.saddopen osnull pworld t fname fstat mode).1 ∨
      (Pfile.saddopen osnull pworld t fname fstat mode).1 ∈
        [PFILE_ERR_NULL, PFILE_ERR_OPEN, PFILE_ERR_SLEN]) ∧
    (0 ≤ (Pfile.xadd t fname mode).1 ↔ ¬ PFILE_LEN < fname.length) ∧
    (0 ≤ (Pfile.xadd t fname mode).1 →
      (Pfile.xadd t fname mode).1 = Int.ofNat t.m_nfiles ∧
      (Pfile.xadd t fname mode).2.m_nfiles = t.m_nfiles + 1) := by
  have hxadd : ∀ u : Pfile, 0 ≤ (Pfile.xadd u fname mode).1 ∨
      (Pfile.xadd u fname mode).1 = PFILE_ERR_SLEN := by
    intro u
    unfold Pfile.xadd
    split_ifs
    · right; rfl
    · left; exact Int.ofNat_nonneg _
  have hsadd : 0 ≤ (Pfile.sadd pworld t fname mode).1 ∨
      (Pfile.sadd pworld t fname mode).1 = PFILE_ERR_SLEN := by
    unfold Pfile.sadd
    cases hf : t.m_fname.findIdx? (fun s => s == fname) with
    | none =>
      simp only [hf]
      unfold Pfile.add
      exact hxadd t
    | some i =>
      simp only [hf]
      left
      exact Int.ofNat_nonneg _
  have hopenf : ∀ (u : Pfile) (k : Nat),
      (Pfile.openf osnull pworld u k fstat).1 = 0 ∨
      (Pfile.openf osnull pworld u k fstat).1 = PFILE_ERR_OPEN ∨
      (Pfile.openf osnull pworld u k fstat).1 = PFILE_ERR_NULL := by
    intro u k
    unfold Pfile.openf Pfile.xopen
    split_ifs <;> first
      | exact Or.inl rfl
      | exact Or.inr (Or.inl rfl)
      | exact Or.inr (Or.inr rfl)
  refine ⟨⟨by decide, by decide⟩, hxadd t, hsadd, ?_, ?_, ?_⟩
  · unfold Pfile.saddopen
    split_ifs with hr ho
    · right
      rcases hsadd with hs | hs
      · exact absurd hr (not_lt.mpr hs)
      · rw [hs]; decide
    · right
      rcases hopenf (Pfile.sadd pworld t fname mode).2
          (Pfile.sadd pworld t fname mode).1.toNat with hw | hw | hw
      · exact absurd ho (by rw [hw]; decide)
      · rw [hw]; decide
      · rw [hw]; decide
    · left
      exact not_lt.mp hr
  · unfold Pfile.xadd
    split_ifs with h
    · constructor
      · intro hc; exact absurd hc (by show ¬ (0 : Int) ≤ PFILE_ERR_SLEN; decide)
      · intro hc; exact absurd h hc
    · constructor
      · intro _; exact h
      · intro _; exact Int.ofNat_nonneg _
  · unfold Pfile.xadd
    split_ifs with h
    · intro hc; exact absurd hc (by show ¬ (0 : Int) ≤ PFILE_ERR_SLEN; decide)
    · intro _; exact ⟨rfl, rfl⟩

/-- Claim C8 witness: on an empty table, adding "log" succeeds with a
non-negative return, the sign test matches the length test, and the error
codes are negative. -/
theorem Pfile.error_codes_sign_distinguishes_witness :
    (0 ≤ (Pfile.xadd ⟨[], [], [], [], [], 0⟩ "log" SMode.shared).1 ↔
      ¬ PFILE_LEN < ("log").length) ∧
    PFILE_ERR_SLEN < 0 ∧
    (Pfile.xadd ⟨[], [], [], [], [], 0⟩ "log" SMode.shared).2.m_nfiles = 0 + 1 := by
  have h := Pfile.error_codes_sign_distinguishes false ⟨0, 1, 0⟩
    ⟨[], [], [], [], [], 0⟩ "log" "w" SMode.shared
  exact ⟨h.2.2.2.2.1, h.1.2 PFILE_ERR_SLEN (by decide), (h.2.2.2.2.2 (by decide)).2⟩
